import Mathlib

/-!
Verification of the superhero-network analysis program
(`app/superhero_network.py`) against its design specification.

The program works over two tabular collections:
nodes (superheroes: id, name, created_at) and edges (links: source, target).
We embed the data model and the operations the spec talks about as plain
Lean functions over lists, following the source line by line:

* `count_nodes` embeds `superheroes['id'].nunique()`;
* `recent_nodes` embeds the `created_at >= today - timedelta(days=3)` filter;
* `allEndpoints`, `connection_counts`, `top_k_by_degree` embed
  `Counter(links['source'].tolist() + links['target'].tolist())` and
  `most_common(k)` (a stable descending sort by count, as `heapq.nlargest`);
* `lookup_name`, `resolve_top`, `top_connected` embed the name resolution
  `superheroes.loc[superheroes['id'] == hero_id, 'name'].values[0]`, which
  raises when no row matches (modelled as `Option`);
* `friend_ids`, `neighbor_report` embed the connection analysis in
  `analyze_dataiskole`;
* `add_superhero` embeds `superheroes['id'].max() + 1` (the max of an empty
  series is NaN, modelled as `none`);
* `add_connection` embeds the endpoint resolution, the emptiness check and
  the `int(series)` conversions (which fail unless the series has exactly
  one element, modelled by `series_to_int`).

Dates are embedded as integers (a day count), ids as naturals.
-/

/-- A superhero row: id, name, creation date (as a day number). -/
structure Node where
  id : Nat
  name : String
  created_at : Int
deriving Repr, DecidableEq

/-- A link row: (source, target) pair of node ids. -/
abbrev Edge := Nat × Nat

/-- The distinct elements of a list, in order of first occurrence.
This is the key order of a Python `Counter`/`dict` built by scanning the
list (insertion order), and also the order of pandas `Series.unique()`. -/
def uniqueFirst : List Nat → List Nat
  | [] => []
  | x :: xs => x :: (uniqueFirst xs).filter (fun y => y ≠ x)

theorem mem_uniqueFirst (l : List Nat) (y : Nat) : y ∈ uniqueFirst l ↔ y ∈ l := by
  induction l with
  | nil => simp [uniqueFirst]
  | cons x xs ih =>
    simp only [uniqueFirst, List.mem_cons, List.mem_filter, ih]
    constructor
    · rintro (rfl | ⟨hy, _⟩)
      · exact Or.inl rfl
      · exact Or.inr hy
    · rintro (rfl | hy)
      · exact Or.inl rfl
      · by_cases hxy : y = x
        · exact Or.inl hxy
        · exact Or.inr ⟨hy, by simp [hxy]⟩

theorem nodup_uniqueFirst (l : List Nat) : (uniqueFirst l).Nodup := by
  induction l with
  | nil => simp [uniqueFirst]
  | cons x xs ih =>
    simp only [uniqueFirst, List.nodup_cons]
    refine ⟨?_, ih.filter _⟩
    intro hx
    have := (List.mem_filter.mp hx).2
    simp at this

theorem toFinset_uniqueFirst (l : List Nat) : (uniqueFirst l).toFinset = l.toFinset := by
  ext y
  simp [mem_uniqueFirst]

/-- Embeds `superheroes['id'].nunique()`: the number of distinct id values. -/
def count_nodes (nodes : List Node) : Nat :=
  (uniqueFirst (nodes.map Node.id)).length

/-- Claim C8 (confirmed). For every Nodes collection, including ones with duplicate id rows,
`count_nodes` returns the number of distinct id values (the cardinality of the
set of ids), not the number of rows. -/
theorem count_nodes_eq_card_distinct_ids (nodes : List Node) :
    count_nodes nodes = (nodes.map Node.id).toFinset.card := by
  rw [count_nodes, ← toFinset_uniqueFirst,
    List.toFinset_card_of_nodup (nodup_uniqueFirst _)]

/-- Embeds `superheroes[superheroes['created_at'] >= today - timedelta(days=3)]`
(generalised over the window width): keeps, in collection order, the rows whose
date is at least `today - window`.  The source puts no upper bound on the date. -/
def recent_nodes (nodes : List Node) (today window : Int) : List Node :=
  nodes.filter (fun n => today - window ≤ n.created_at)

/-- Modelled from the spec's words for comparison with `recent_nodes`: keeps the
rows whose date lies in the two-sided inclusive interval `[today - window, today]`. -/
def recent_nodes_interval (nodes : List Node) (today window : Int) : List Node :=
  nodes.filter (fun n => today - window ≤ n.created_at ∧ n.created_at ≤ today)

/-- The concatenation `links['source'].tolist() + links['target'].tolist()`:
all sources in file order followed by all targets in file order.  The degree
`Counter` is built by scanning this list. -/
def allEndpoints (links : List Edge) : List Nat :=
  links.map Prod.fst ++ links.map Prod.snd

/-- The degree count the program associates to an id:
`Counter(links['source'].tolist() + links['target'].tolist())[i]`, i.e. the
number of occurrences of `i` in the endpoint list (a self-loop occurs twice). -/
def degree (links : List Edge) (i : Nat) : Nat :=
  (allEndpoints links).count i

/-- Modelled from the spec's words for comparison with `degree`: the number of
edges in which `i` appears as source or as target (a self-loop is one edge). -/
def degree_edges (links : List Edge) (i : Nat) : Nat :=
  (links.filter (fun e => e.1 = i ∨ e.2 = i)).length

/-- The `Counter` from line 78 of the source, as an association list in key
insertion order: one `(id, count)` pair per distinct endpoint, ids in order of
first occurrence in `allEndpoints`. -/
def connection_counts (links : List Edge) : List (Nat × Nat) :=
  (uniqueFirst (allEndpoints links)).map (fun i => (i, degree links i))

/-- One step of a stable descending insertion sort by count: walks past every
element of the accumulator whose count is at least `x`'s and inserts `x` before
the first strictly smaller one. -/
def insertByCount (x : Nat × Nat) : List (Nat × Nat) → List (Nat × Nat)
  | [] => [x]
  | y :: ys => if x.2 ≤ y.2 then y :: insertByCount x ys else x :: y :: ys

/-- Stable sort of count pairs in descending count order (elements with equal
counts keep their relative order).  `Counter.most_common` is specified as
`sorted(counter.items(), key=count, reverse=True)`, which is exactly this. -/
def sortByCountDesc (l : List (Nat × Nat)) : List (Nat × Nat) :=
  l.foldl (fun acc x => insertByCount x acc) []

/-- Embeds `Counter(...).most_common(k)` (line 79 uses `k = 3`): the first `k`
count pairs in descending count order, ties kept in `Counter` insertion order,
which is first-seen order in the sources-then-targets endpoint list. -/
def top_k_by_degree (links : List Edge) (k : Nat) : List (Nat × Nat) :=
  (sortByCountDesc (connection_counts links)).take k

/-- Modelled from the spec's words for comparison with `top_k_by_degree`: the
same stable descending sort, but with ties broken by first-seen order when
scanning the edge collection edge by edge (source then target of edge 1, then
edge 2, ...). -/
def top_k_by_degree_edgewise (links : List Edge) (k : Nat) : List (Nat × Nat) :=
  (sortByCountDesc
    ((uniqueFirst (links.flatMap (fun e => [e.1, e.2]))).map
      (fun i => (i, degree links i)))).take k

/-- Descending order on count pairs: the right count is at most the left one. -/
def CountGE (a b : Nat × Nat) : Prop := b.2 ≤ a.2

theorem insertByCount_perm (x : Nat × Nat) (acc : List (Nat × Nat)) :
    (insertByCount x acc).Perm (x :: acc) := by
  induction acc with
  | nil => simp [insertByCount]
  | cons y ys ih =>
    rw [insertByCount]
    by_cases h : x.2 ≤ y.2
    · rw [if_pos h]
      exact (ih.cons y).trans (List.Perm.swap x y ys)
    · rw [if_neg h]

theorem pairwise_insertByCount (x : Nat × Nat) (acc : List (Nat × Nat))
    (h : acc.Pairwise CountGE) : (insertByCount x acc).Pairwise CountGE := by
  induction acc with
  | nil => simp [insertByCount]
  | cons y ys ih =>
    rw [List.pairwise_cons] at h
    obtain ⟨hy, hys⟩ := h
    rw [insertByCount]
    by_cases hxy : x.2 ≤ y.2
    · simp only [if_pos hxy]
      rw [List.pairwise_cons]
      refine ⟨?_, ih hys⟩
      intro z hz
      have hz' : z ∈ x :: ys := (insertByCount_perm x ys).mem_iff.mp hz
      rcases List.mem_cons.mp hz' with rfl | hz''
      · exact hxy
      · exact hy z hz''
    · simp only [if_neg hxy]
      push_neg at hxy
      rw [List.pairwise_cons]
      refine ⟨?_, List.pairwise_cons.mpr ⟨hy, hys⟩⟩
      intro z hz
      rcases List.mem_cons.mp hz with rfl | hz'
      · exact le_of_lt hxy
      · exact le_trans (hy z hz') (le_of_lt hxy)

theorem filter_of_lt_head (y : Nat × Nat) (ys : List (Nat × Nat)) (c : Nat)
    (hy : ∀ z ∈ ys, z.2 ≤ y.2) (hc : y.2 < c) :
    (y :: ys).filter (fun p => p.2 = c) = [] := by
  apply List.filter_eq_nil_iff.mpr
  intro a ha
  rcases List.mem_cons.mp ha with rfl | ha'
  · simp [Nat.ne_of_lt hc]
  · have := hy a ha'
    have : a.2 < c := lt_of_le_of_lt this hc
    simp [Nat.ne_of_lt this]

theorem filter_insertByCount (x : Nat × Nat) (acc : List (Nat × Nat)) (c : Nat)
    (h : acc.Pairwise CountGE) :
    (insertByCount x acc).filter (fun p => p.2 = c) =
      if x.2 = c then acc.filter (fun p => p.2 = c) ++ [x]
      else acc.filter (fun p => p.2 = c) := by
  induction acc with
  | nil =>
    by_cases hc : x.2 = c <;> simp [insertByCount, List.filter_cons, hc]
  | cons y ys ih =>
    rw [List.pairwise_cons] at h
    obtain ⟨hy, hys⟩ := h
    rw [insertByCount]
    by_cases hxy : x.2 ≤ y.2
    · simp only [if_pos hxy]
      rw [List.filter_cons, List.filter_cons]
      by_cases hyc : y.2 = c <;> by_cases hxc : x.2 = c <;>
        simp [hyc, hxc, ih hys]
    · simp only [if_neg hxy]
      push_neg at hxy
      by_cases hxc : x.2 = c
      · have hnil : (y :: ys).filter (fun p => p.2 = c) = [] :=
          filter_of_lt_head y ys c hy (hxc ▸ hxy)
        rw [List.filter_cons]
        simp [hxc, hnil]
      · rw [List.filter_cons]
        simp [hxc]

theorem foldl_insert_invariant (l : List (Nat × Nat)) :
    ∀ acc : List (Nat × Nat), acc.Pairwise CountGE →
      (l.foldl (fun a x => insertByCount x a) acc).Pairwise CountGE ∧
      ∀ c, (l.foldl (fun a x => insertByCount x a) acc).filter (fun p => p.2 = c) =
        acc.filter (fun p => p.2 = c) ++ l.filter (fun p => p.2 = c) := by
  induction l with
  | nil => intro acc h; exact ⟨h, fun c => by simp⟩
  | cons x xs ih =>
    intro acc h
    have h' := pairwise_insertByCount x acc h
    obtain ⟨hp, hf⟩ := ih (insertByCount x acc) h'
    refine ⟨hp, fun c => ?_⟩
    rw [List.foldl_cons, hf c, filter_insertByCount x acc c h, List.filter_cons]
    by_cases hc : x.2 = c <;> simp [hc]

theorem pairwise_sortByCountDesc (l : List (Nat × Nat)) :
    (sortByCountDesc l).Pairwise CountGE :=
  (foldl_insert_invariant l [] (List.Pairwise.nil)).1

theorem filter_sortByCountDesc (l : List (Nat × Nat)) (c : Nat) :
    (sortByCountDesc l).filter (fun p => p.2 = c) = l.filter (fun p => p.2 = c) := by
  have := (foldl_insert_invariant l [] (List.Pairwise.nil)).2 c
  simpa [sortByCountDesc] using this

/-- Embeds `superheroes.loc[superheroes['id'] == hero_id, 'name'].values[0]`:
the name of the first row whose id matches, or `none` when no row matches
(`values[0]` on an empty selection raises `IndexError`). -/
def lookup_name (nodes : List Node) (i : Nat) : Option String :=
  ((nodes.filter (fun n => n.id = i)).map Node.name).head?

/-- Embeds the `for hero_id, count in top_3` loop of `basic_stats`: resolves
each ranked id to a name in order; the first id with no matching row aborts the
whole loop with an error (`none`). -/
def resolve_top (nodes : List Node) : List (Nat × Nat) → Option (List (String × Nat))
  | [] => some []
  | (i, c) :: rest =>
    match lookup_name nodes i with
    | none => none
    | some nm => (resolve_top nodes rest).map (fun tl => (nm, c) :: tl)

/-- The ranked-and-named top-`k` listing of `basic_stats`: `most_common(k)`
followed by name resolution, which errors out on an unresolvable id. -/
def top_connected (nodes : List Node) (links : List Edge) (k : Nat) :
    Option (List (String × Nat)) :=
  resolve_top nodes (top_k_by_degree links k)

/-- Embeds the friend-id computation of `analyze_dataiskole`:
`pd.concat([links[links['source']==i]['target'], links[links['target']==i]['source']]).unique()`
— targets of edges with source `i` in file order, then sources of edges with
target `i`, deduplicated keeping first occurrences. -/
def friend_ids (links : List Edge) (i : Nat) : List Nat :=
  uniqueFirst ((links.filter (fun e => e.1 = i)).map Prod.snd ++
               (links.filter (fun e => e.2 = i)).map Prod.fst)

/-- Modelled from the spec's words for comparison with `friend_ids`: the same
union of opposite endpoints but with the node itself excluded. -/
def neighbors_excl_self (links : List Edge) (i : Nat) : List Nat :=
  (friend_ids links i).filter (fun j => j ≠ i)

/-- Embeds `analyze_dataiskole` generalised over the queried name: the first
row matching the name (`iloc[0]`), its date, and the names of the rows whose id
is among the friend ids (`superheroes[superheroes['id'].isin(friend_ids)]`),
in collection order; `none` when the name matches no row. -/
def neighbor_report (nodes : List Node) (links : List Edge) (nm : String) :
    Option (Int × List String) :=
  match nodes.find? (fun n => n.name = nm) with
  | none => none
  | some n =>
    some (n.created_at,
      (nodes.filter (fun m => m.id ∈ friend_ids links n.id)).map Node.name)

/-- Embeds pandas `Series.max()` over the id column: `none` on an empty series
(pandas yields `NaN` there), otherwise the maximum. -/
def ids_max : List Nat → Option Nat
  | [] => none
  | x :: xs => some (xs.foldl Nat.max x)

/-- Embeds `add_superhero`: the new row gets id `superheroes['id'].max() + 1`
and the current date, and is appended.  On an empty collection the max is `NaN`
(modelled `none`), so no numeric id exists and the result is `none`. -/
def add_superhero (nodes : List Node) (nm : String) (today : Int) :
    Option (List Node) :=
  match ids_max (nodes.map Node.id) with
  | none => none
  | some m => some (nodes ++ [⟨m + 1, nm, today⟩])

/-- Embeds `superheroes[superheroes['name'] == name]['id']`: the ids of all
rows with the given name, in collection order. -/
def name_matches (nodes : List Node) (nm : String) : List Nat :=
  (nodes.filter (fun n => n.name = nm)).map Node.id

/-- Embeds Python `int(series)`: defined only when the series holds exactly one
element; on any other length pandas raises `TypeError`. -/
def series_to_int : List Nat → Option Nat
  | [x] => some x
  | _ => none

/-- Failure modes of `add_connection`: the explicit not-found check, and the
`TypeError` raised by `int()` on a multi-element id series. -/
inductive EdgeAddError where
  | NodeNotFound
  | TypeConversion
deriving Repr, DecidableEq

/-- Embeds `add_connection`: resolve both names to id series; if either series
is empty, report not-found and stop before touching the links file; otherwise
convert each series with `int(...)` (failing on multiple matches) and append
the edge `(id1, id2)`. -/
def add_connection (nodes : List Node) (links : List Edge)
    (name1 name2 : String) : Except EdgeAddError (List Edge) :=
  let id1 := name_matches nodes name1
  let id2 := name_matches nodes name2
  if id1.isEmpty || id2.isEmpty then
    Except.error EdgeAddError.NodeNotFound
  else
    match series_to_int id1, series_to_int id2 with
    | some a, some b => Except.ok (links ++ [(a, b)])
    | _, _ => Except.error EdgeAddError.TypeConversion

theorem sortByCountDesc_perm (l : List (Nat × Nat)) : (sortByCountDesc l).Perm l := by
  have aux : ∀ (l acc : List (Nat × Nat)),
      (l.foldl (fun a x => insertByCount x a) acc).Perm (acc ++ l) := by
    intro l
    induction l with
    | nil => intro acc; simp
    | cons x xs ih =>
      intro acc
      rw [List.foldl_cons]
      exact (ih (insertByCount x acc)).trans
        (((insertByCount_perm x acc).append_right xs).trans List.perm_middle.symm)
  simpa [sortByCountDesc] using aux l []

theorem count_map_eq_length_filter (f : Edge → Nat) (links : List Edge) (i : Nat) :
    (links.map f).count i = (links.filter (fun e => f e = i)).length := by
  induction links with
  | nil => simp
  | cons e es ih =>
    by_cases h : f e = i <;>
      simp [List.count_cons, List.filter_cons, h, ih]

/-- Claim C2 (corrected). The degree the program computes for an id is the
number of occurrences of the id as a source plus its number of occurrences as
a target, so an edge contributes once per endpoint slot it fills: a self-loop
edge `(id, id)` contributes 2 to `degree id`, not 1. -/
theorem degree_counts_endpoint_occurrences (links : List Edge) (i : Nat) :
    degree links i =
      (links.filter (fun e => e.1 = i)).length +
      (links.filter (fun e => e.2 = i)).length := by
  rw [degree, allEndpoints, List.count_append,
    count_map_eq_length_filter Prod.fst links i,
    count_map_eq_length_filter Prod.snd links i]

/-- Counterexample to claim C2 as stated: for the single self-loop edge
`(1, 1)`, the program's degree of node 1 is 2, while the number of edges in
which 1 appears as source or target is 1. -/
theorem degree_self_loop_counterexample :
    degree [(1, 1)] 1 = 2 ∧ degree_edges [(1, 1)] 1 = 1 ∧
    degree [(1, 1)] 1 ≠ degree_edges [(1, 1)] 1 := by
  decide

/-- Claim C7 (corrected). The recency filter keeps exactly the rows whose date
is at least `today - 3`, in collection order (it is a sublist of the input);
the lower boundary is inclusive, but there is no upper bound at `today`: a row
dated after `today` is also kept. -/
theorem recent_nodes_lower_bound_only (nodes : List Node) (today : Int) :
    (recent_nodes nodes today 3).Sublist nodes ∧
    ∀ n, n ∈ recent_nodes nodes today 3 ↔ n ∈ nodes ∧ today - 3 ≤ n.created_at := by
  refine ⟨List.filter_sublist nodes, fun n => ?_⟩
  simp [recent_nodes]

/-- Counterexample to claim C7 as stated: a node dated 5 days after `today = 0`
is outside the inclusive interval `[today - 3, today]`, yet `recent_nodes`
returns it, because the source filter has no upper bound. -/
theorem recent_nodes_future_counterexample :
    recent_nodes [⟨1, "A", 5⟩] 0 3 = [⟨1, "A", 5⟩] ∧
    recent_nodes_interval [⟨1, "A", 5⟩] 0 3 = [] ∧
    recent_nodes [⟨1, "A", 5⟩] 0 3 ≠ recent_nodes_interval [⟨1, "A", 5⟩] 0 3 := by
  refine ⟨rfl, rfl, fun h => ?_⟩
  have := congrArg List.length h
  simp [recent_nodes, recent_nodes_interval] at this

/-- Claim C5 (corrected). The friend set of `i` is the union of the targets of
edges with source `i` and the sources of edges with target `i`, with no
exclusion of `i` itself: membership holds exactly when `(i, j)` or `(j, i)` is
an edge, so a self-loop `(i, i)` puts `i` into its own friend set. -/
theorem friend_ids_mem (links : List Edge) (i j : Nat) :
    j ∈ friend_ids links i ↔ (i, j) ∈ links ∨ (j, i) ∈ links := by
  rw [friend_ids, mem_uniqueFirst, List.mem_append]
  constructor
  · rintro (h | h)
    · obtain ⟨e, he, rfl⟩ := List.mem_map.mp h
      have := List.mem_filter.mp he
      refine Or.inl ?_
      have h1 : e.1 = i := by simpa using this.2
      have : e = (i, e.2) := by
        cases e
        simp_all
      rw [← this]
      exact this ▸ this.symm ▸ (List.mem_filter.mp he).1
    · obtain ⟨e, he, rfl⟩ := List.mem_map.mp h
      have := List.mem_filter.mp he
      refine Or.inr ?_
      have h2 : e.2 = i := by simpa using this.2
      have : e = (e.1, i) := by
        cases e
        simp_all
      rw [← this]
      exact (List.mem_filter.mp he).1
  · rintro (h | h)
    · refine Or.inl (List.mem_map.mpr ⟨(i, j), List.mem_filter.mpr ⟨h, by simp⟩, rfl⟩)
    · refine Or.inr (List.mem_map.mpr ⟨(j, i), List.mem_filter.mpr ⟨h, by simp⟩, rfl⟩)

/-- Counterexample to claim C5 as stated: with the single self-loop edge
`(1, 1)`, the program's friend set of node 1 is `[1]` — node 1 appears in its
own neighbor set — whereas the claimed self-excluding neighbor set is empty. -/
theorem friend_ids_self_loop_counterexample :
    friend_ids [(1, 1)] 1 = [1] ∧ neighbors_excl_self [(1, 1)] 1 = [] ∧
    friend_ids [(1, 1)] 1 ≠ neighbors_excl_self [(1, 1)] 1 := by
  decide

/-- Claim C1 (corrected). `top_k_by_degree` is the `k`-prefix of the count
pairs stably sorted in descending count order: the output is descending in its
counts, every listed count is the id's degree, and for each count value the
sorted list keeps exactly the pairs of `connection_counts` in their original
order — and that original order is first-seen order in the list of all source
endpoints (in file order) followed by all target endpoints (in file order),
not first-seen order scanning the edges row by row. -/
theorem top_k_by_degree_sorted_stable (links : List Edge) (k : Nat) :
    top_k_by_degree links k = (sortByCountDesc (connection_counts links)).take k ∧
    (top_k_by_degree links k).Pairwise CountGE ∧
    (∀ c, (sortByCountDesc (connection_counts links)).filter (fun p => p.2 = c) =
      (connection_counts links).filter (fun p => p.2 = c)) ∧
    (connection_counts links).map Prod.fst = uniqueFirst (allEndpoints links) ∧
    ∀ p ∈ top_k_by_degree links k, p.2 = degree links p.1 := by
  refine ⟨rfl, ?_, filter_sortByCountDesc _, ?_, ?_⟩
  · exact (pairwise_sortByCountDesc _).sublist (List.take_sublist _ _)
  · rw [connection_counts, List.map_map]
    exact List.map_id _
  · intro p hp
    have h1 : p ∈ sortByCountDesc (connection_counts links) :=
      (List.take_sublist _ _).subset hp
    have h2 : p ∈ connection_counts links :=
      (sortByCountDesc_perm _).subset h1
    obtain ⟨i, _, rfl⟩ := List.mem_map.mp h2
    rfl

/-- Counterexample to claim C1 as stated: for edges `(1,2), (3,4)` all four ids
have degree 1; scanning edge by edge first sees `1, 2, 3, 4`, but the program
scans the source column then the target column, first seeing `1, 3, 2, 4`, so
its top-3 is `(1,1), (3,1), (2,1)` and not the claimed `(1,1), (2,1), (3,1)`. -/
theorem top_k_tiebreak_counterexample :
    top_k_by_degree [(1, 2), (3, 4)] 3 = [(1, 1), (3, 1), (2, 1)] ∧
    top_k_by_degree_edgewise [(1, 2), (3, 4)] 3 = [(1, 1), (2, 1), (3, 1)] ∧
    top_k_by_degree [(1, 2), (3, 4)] 3 ≠ top_k_by_degree_edgewise [(1, 2), (3, 4)] 3 := by
  decide

/-- Witness for the amended claim C1 at a concrete input: on the spec's own
example edges `(1,2), (1,3), (2,3)` the output is descending, `(1, 2)` is
ranked, and its listed count is node 1's degree. -/
theorem top_k_by_degree_sorted_stable_witness :
    (top_k_by_degree [(1, 2), (1, 3), (2, 3)] 3).Pairwise CountGE ∧
    (1, 2) ∈ top_k_by_degree [(1, 2), (1, 3), (2, 3)] 3 ∧
    ((1, 2) : Nat × Nat).2 = degree [(1, 2), (1, 3), (2, 3)] 1 :=
  ⟨(top_k_by_degree_sorted_stable [(1, 2), (1, 3), (2, 3)] 3).2.1,
   by decide,
   (top_k_by_degree_sorted_stable [(1, 2), (1, 3), (2, 3)] 3).2.2.2.2
     (1, 2) (by decide)⟩

theorem lookup_name_eq_none (nodes : List Node) (i : Nat)
    (h : ∀ n ∈ nodes, n.id ≠ i) : lookup_name nodes i = none := by
  have hf : nodes.filter (fun n => n.id = i) = [] :=
    List.filter_eq_nil_iff.mpr (fun a ha => by simpa using h a ha)
  simp [lookup_name, hf]

theorem resolve_top_eq_none (nodes : List Node) (pairs : List (Nat × Nat))
    (i c : Nat) (hmem : (i, c) ∈ pairs) (hi : lookup_name nodes i = none) :
    resolve_top nodes pairs = none := by
  induction pairs with
  | nil => cases hmem
  | cons p rest ih =>
    obtain ⟨j, d⟩ := p
    rcases List.mem_cons.mp hmem with heq | hmem'
    · have hj : j = i := (congrArg Prod.fst heq).symm
      subst hj
      simp [resolve_top, hi]
    · simp only [resolve_top, ih hmem']
      cases lookup_name nodes j <;> rfl

/-- Claim C6 (confirmed). If `top_k_by_degree` ranks an id that matches no row
of the Nodes collection, the name-resolution pass of `basic_stats` fails as a
whole (the source raises `IndexError` on `.values[0]`, modelled as `none`);
the unresolved id is not silently skipped from the output. -/
theorem top_connected_unresolved_id_errors (nodes : List Node)
    (links : List Edge) (k i c : Nat)
    (hmem : (i, c) ∈ top_k_by_degree links k)
    (h : ∀ n ∈ nodes, n.id ≠ i) :
    top_connected nodes links k = none :=
  resolve_top_eq_none nodes _ i c hmem (lookup_name_eq_none nodes i h)

/-- Witness for claim C6 at a concrete input: with no nodes at all, id 1 is
ranked for edges `[(1, 2)]` and the resolution of the ranking errors out. -/
theorem top_connected_unresolved_id_errors_witness :
    ((1, 1) ∈ top_k_by_degree [(1, 2)] 3) ∧
    top_connected ([] : List Node) [(1, 2)] 3 = none :=
  ⟨by decide,
   top_connected_unresolved_id_errors [] [(1, 2)] 3 1 1 (by decide)
     (fun n hn => absurd hn (List.not_mem_nil n))⟩

theorem nat_max_choice (a b : Nat) : Nat.max a b = a ∨ Nat.max a b = b := by
  by_cases h : a ≤ b
  · exact Or.inr (Nat.max_eq_right h)
  · exact Or.inl (Nat.max_eq_left (Nat.le_of_not_le h))

theorem foldl_max_mem (xs : List Nat) (x : Nat) :
    xs.foldl Nat.max x ∈ x :: xs := by
  induction xs generalizing x with
  | nil => simp
  | cons y ys ih =>
    rw [List.foldl_cons]
    have h := ih (Nat.max x y)
    rcases List.mem_cons.mp h with heq | hmem
    · rcases nat_max_choice x y with hx | hy
      · rw [heq, hx]; exact List.mem_cons_self _ _
      · rw [heq, hy]
        exact List.mem_cons_of_mem _ (List.mem_cons_self _ _)
    · exact List.mem_cons_of_mem _ (List.mem_cons_of_mem _ hmem)

theorem le_foldl_max (xs : List Nat) (x : Nat) :
    x ≤ xs.foldl Nat.max x ∧ ∀ y ∈ xs, y ≤ xs.foldl Nat.max x := by
  induction xs generalizing x with
  | nil => exact ⟨Nat.le_refl x, by simp⟩
  | cons z zs ih =>
    rw [List.foldl_cons]
    obtain ⟨h1, h2⟩ := ih (Nat.max x z)
    refine ⟨Nat.le_trans (Nat.le_max_left x z) h1, ?_⟩
    intro y hy
    rcases List.mem_cons.mp hy with rfl | hmem
    · exact Nat.le_trans (Nat.le_max_right x y) h1
    · exact h2 y hmem

theorem ids_max_spec (l : List Nat) (h : l ≠ []) :
    ∃ m, ids_max l = some m ∧ m ∈ l ∧ ∀ y ∈ l, y ≤ m := by
  cases l with
  | nil => exact absurd rfl h
  | cons x xs =>
    refine ⟨xs.foldl Nat.max x, rfl, foldl_max_mem xs x, ?_⟩
    intro y hy
    rcases List.mem_cons.mp hy with rfl | hmem
    · exact (le_foldl_max xs y).1
    · exact (le_foldl_max xs x).2 y hmem

/-- Claim C4 (corrected). On a nonempty collection `add_superhero` appends a
row whose id is the maximum existing id plus one; but on an empty collection
no default id is assigned: `superheroes['id'].max()` is NaN there (modelled as
`none`), so no row with id 1 (or any numeric id) is produced. -/
theorem add_superhero_id_assignment (nodes : List Node) (nm : String) (today : Int) :
    (nodes = [] → add_superhero nodes nm today = none) ∧
    (nodes ≠ [] → ∃ m, (∃ n ∈ nodes, n.id = m) ∧ (∀ n ∈ nodes, n.id ≤ m) ∧
      add_superhero nodes nm today = some (nodes ++ [⟨m + 1, nm, today⟩])) := by
  constructor
  · rintro rfl
    rfl
  · intro h
    have hne : nodes.map Node.id ≠ [] := by
      simpa using h
    obtain ⟨m, hmax, hmem, hle⟩ := ids_max_spec (nodes.map Node.id) hne
    obtain ⟨n, hn, hid⟩ := List.mem_map.mp hmem
    refine ⟨m, ⟨n, hn, hid⟩, ?_, ?_⟩
    · intro n' hn'
      exact hle n'.id (List.mem_map.mpr ⟨n', hn', rfl⟩)
    · rw [add_superhero, hmax]

/-- Counterexample to claim C4 as stated: adding to an empty collection does
not produce a node with the claimed default id 1 — the embedded operation
yields `none` (the id computed by the source is NaN). -/
theorem add_superhero_empty_counterexample :
    add_superhero [] "A" 0 = none ∧
    (none : Option (List Node)) ≠ some [⟨1, "A", 0⟩] :=
  ⟨rfl, fun h => Option.noConfusion h⟩

/-- Witness for the amended claim C4 at a concrete input: for rows with ids 5
and 2, the appended row gets id 6 = 5 + 1. -/
theorem add_superhero_id_assignment_witness :
    ∃ m, (∃ n ∈ ([⟨5, "A", 0⟩, ⟨2, "B", 0⟩] : List Node), n.id = m) ∧
      (∀ n ∈ ([⟨5, "A", 0⟩, ⟨2, "B", 0⟩] : List Node), n.id ≤ m) ∧
      add_superhero [⟨5, "A", 0⟩, ⟨2, "B", 0⟩] "C" 7 =
        some ([⟨5, "A", 0⟩, ⟨2, "B", 0⟩] ++ [⟨m + 1, "C", 7⟩]) :=
  (add_superhero_id_assignment [⟨5, "A", 0⟩, ⟨2, "B", 0⟩] "C" 7).2
    (List.cons_ne_nil _ _)

/-- Claim C3 (confirmed). If either endpoint name of `add_connection` matches
no row of the Nodes collection, the operation fails with the not-found error
and produces no edge list at all — the links collection is untouched (the
source prints the error and returns before even reading the links file). -/
theorem add_connection_not_found (nodes : List Node) (links : List Edge)
    (name1 name2 : String)
    (h : name_matches nodes name1 = [] ∨ name_matches nodes name2 = []) :
    add_connection nodes links name1 name2 =
      Except.error EdgeAddError.NodeNotFound := by
  rcases h with h | h <;> simp [add_connection, h]

/-- Witness for claim C3 at a concrete input: name "B" matches no row, so the
connection from "A" to "B" is refused with the not-found error. -/
theorem add_connection_not_found_witness :
    name_matches [⟨1, "A", 0⟩] "B" = [] ∧
    add_connection [⟨1, "A", 0⟩] [(1, 1)] "A" "B" =
      Except.error EdgeAddError.NodeNotFound :=
  ⟨rfl, add_connection_not_found [⟨1, "A", 0⟩] [(1, 1)] "A" "B" (Or.inr rfl)⟩

theorem series_to_int_eq_none_of_two_le (l : List Nat) (h : 2 ≤ l.length) :
    series_to_int l = none := by
  match l with
  | [] => rfl
  | [x] => simp at h
  | a :: b :: rest => rfl

/-- Claim C9 (corrected). When each endpoint name matches exactly one row,
`add_connection` appends the edge of the two matched ids; but when either
name — first or second — matches more than one row, the operation does not
resolve to the first match: it fails (the source's `int(series)` raises
`TypeError` on a multi-element series) and appends nothing.  Duplicate names
are an error, not tolerated. -/
theorem add_connection_name_resolution (nodes : List Node) (links : List Edge)
    (name1 name2 : String) :
    (∀ a b, name_matches nodes name1 = [a] → name_matches nodes name2 = [b] →
      add_connection nodes links name1 name2 = Except.ok (links ++ [(a, b)])) ∧
    (name_matches nodes name1 ≠ [] → name_matches nodes name2 ≠ [] →
      2 ≤ (name_matches nodes name1).length ∨
        2 ≤ (name_matches nodes name2).length →
      add_connection nodes links name1 name2 =
        Except.error EdgeAddError.TypeConversion) := by
  constructor
  · intro a b h1 h2
    simp [add_connection, h1, h2, series_to_int]
  · intro h1 h2 hdup
    have e1 : (name_matches nodes name1).isEmpty = false := by
      cases hm : name_matches nodes name1 with
      | nil => exact absurd hm h1
      | cons c cs => rfl
    have e2 : (name_matches nodes name2).isEmpty = false := by
      cases hm : name_matches nodes name2 with
      | nil => exact absurd hm h2
      | cons c cs => rfl
    rcases hdup with h | h
    · have hn := series_to_int_eq_none_of_two_le _ h
      cases hy : series_to_int (name_matches nodes name2) <;>
        simp [add_connection, e1, e2, hn, hy]
    · have hn := series_to_int_eq_none_of_two_le _ h
      cases hx : series_to_int (name_matches nodes name1) <;>
        simp [add_connection, e1, e2, hx, hn]

/-- Counterexample to claim C9 as stated: two rows named "X" (ids 1 and 2) and
one named "Y" (id 3); the claim predicts success with the first match,
appending `(1, 3)`, but the operation fails with the conversion error. -/
theorem add_connection_duplicate_name_counterexample :
    add_connection [⟨1, "X", 0⟩, ⟨2, "X", 0⟩, ⟨3, "Y", 0⟩] [] "X" "Y" =
      Except.error EdgeAddError.TypeConversion ∧
    (Except.error EdgeAddError.TypeConversion : Except EdgeAddError (List Edge)) ≠
      Except.ok [(1, 3)] :=
  ⟨rfl, fun h => Except.noConfusion h⟩

/-- Witness for the amended claim C9 at concrete inputs: unique names "A"
(id 1) and "B" (id 2) produce the appended edge `(1, 2)`; and with a unique
first name "A" but a duplicated second name "B" (ids 2 and 3), the operation
fails with the conversion error. -/
theorem add_connection_name_resolution_witness :
    add_connection [⟨1, "A", 0⟩, ⟨2, "B", 0⟩] [] "A" "B" =
      Except.ok ([] ++ [(1, 2)]) ∧
    add_connection [⟨1, "A", 0⟩, ⟨2, "B", 0⟩, ⟨3, "B", 0⟩] [] "A" "B" =
      Except.error EdgeAddError.TypeConversion :=
  ⟨(add_connection_name_resolution [⟨1, "A", 0⟩, ⟨2, "B", 0⟩] [] "A" "B").1
      1 2 rfl rfl,
   (add_connection_name_resolution [⟨1, "A", 0⟩, ⟨2, "B", 0⟩, ⟨3, "B", 0⟩]
      [] "A" "B").2 (by decide) (by decide) (Or.inr (by decide))⟩

/-- Claim C10 (confirmed). For any name matching some row, the neighbor report
succeeds even when friend ids have no matching node row: it returns the first
matching row's date together with exactly the names of the collection's rows
whose id is a friend id — a friend id with no row is silently omitted rather
than raising an error. -/
theorem neighbor_report_tolerates_dangling (nodes : List Node)
    (links : List Edge) (nm : String) (n : Node)
    (h : nodes.find? (fun m => m.name = nm) = some n) :
    ∃ r, neighbor_report nodes links nm = some r ∧
      r.1 = n.created_at ∧
      ∀ s, s ∈ r.2 ↔
        ∃ m, m ∈ nodes ∧ m.id ∈ friend_ids links n.id ∧ m.name = s := by
  refine ⟨(n.created_at,
    (nodes.filter (fun m => m.id ∈ friend_ids links n.id)).map Node.name),
    ?_, rfl, ?_⟩
  · simp [neighbor_report, h]
  · intro s
    simp only [List.mem_map, List.mem_filter, decide_eq_true_eq]
    constructor
    · rintro ⟨m, ⟨hm, hid⟩, rfl⟩
      exact ⟨m, hm, hid, rfl⟩
    · rintro ⟨m, hm, hid, rfl⟩
      exact ⟨m, ⟨hm, hid⟩, rfl⟩

/-- Witness for claim C10 at a concrete input: the single node "dataiskole"
(id 1) with the dangling edge `(1, 99)` gets a successful report whose friend
list is empty — id 99 has no row and is silently omitted. -/
theorem neighbor_report_tolerates_dangling_witness :
    ∃ r, neighbor_report [⟨1, "dataiskole", 0⟩] [(1, 99)] "dataiskole" = some r ∧
      r.1 = (0 : Int) ∧
      ∀ s, s ∈ r.2 ↔
        ∃ m, m ∈ ([⟨1, "dataiskole", 0⟩] : List Node) ∧
          m.id ∈ friend_ids [(1, 99)] (1 : Nat) ∧ m.name = s :=
  neighbor_report_tolerates_dangling [⟨1, "dataiskole", 0⟩] [(1, 99)]
    "dataiskole" ⟨1, "dataiskole", 0⟩ rfl
